import Mathlib

/-!
# Verification of the wardrobe recommendation core

Shallow embedding of the core of the `wardrobe` repository
(`src/db.py`, `src/outfits.py`, `src/ui/page_style_me.py`) and proofs of the
frozen claims about it.

Text is modelled as `List Char` (called `Str` below), so that the Python
string operations (`split("\n")`, `"\n".join`, `startswith`, f-strings)
become simple recursive functions that are easy to reason about.
Dates are modelled as integers (day numbers): SQLite stores ISO date strings,
whose lexicographic order coincides with chronological order, so an integer
timeline is a faithful abstraction of `date_worn >= date('now', '-N days')`.
-/

/-- Text, modelled as a list of characters. -/
abbrev Str := List Char

namespace Wardrobe

/-! ## Basic text utilities (embedding Python string primitives) -/

/-- Embeds Python `s.split("\n")`: split a text into its lines at each
newline character.  Always returns a non-empty list. -/
def splitNl : Str → List Str
  | [] => [[]]
  | c :: cs =>
    if c = '\n' then [] :: splitNl cs
    else
      match splitNl cs with
      | [] => [[c]]
      | h :: tl => (c :: h) :: tl

/-- Embeds Python `"\n".join(lines)`. -/
def joinNl : List Str → Str
  | [] => []
  | [l] => l
  | l :: ls => l ++ '\n' :: joinNl ls

/-- Embeds Python `a.startswith(b)`: `isPref p t` is true when `p` is a
prefix of `t`. -/
def isPref : Str → Str → Bool
  | [], _ => true
  | _ :: _, [] => false
  | a :: as, b :: bs => a == b && isPref as bs

/-- Embeds Python `p in t` (substring containment). -/
def hasSub (p : Str) : Str → Bool
  | [] => isPref p []
  | c :: ts => isPref p (c :: ts) || hasSub p ts

/-- The character `» ` «, written by code point to keep it out of the
source text of this file. -/
def btChar : Char := Char.ofNat 96

/-- Three backticks: the code-fence delimiter. -/
def bt3 : Str := [btChar, btChar, btChar]

/-- Embeds Python `line.startswith("` ` `")` from `generate_outfits`. -/
def fenceStart (t : Str) : Bool := isPref bt3 t

/-- The character used to render a digit `d` (0 ≤ d ≤ 9). -/
def digitChar (d : Nat) : Char := Char.ofNat (48 + d)

/-- Fuel-based digit accumulator for `natToStr` (the fuel argument makes the
recursion structural; any fuel above `n` yields the digits of `n`). -/
def natToStrAux : Nat → Nat → Str → Str
  | 0, _, acc => acc
  | fuel + 1, n, acc =>
    if n < 10 then digitChar n :: acc
    else natToStrAux fuel (n / 10) (digitChar (n % 10) :: acc)

/-- Decimal rendering of a natural number, embedding Python `str(n)`. -/
def natToStr (n : Nat) : Str := natToStrAux (n + 1) n []

/-- Decimal rendering of an integer, embedding Python `str(i)` /
`f"{i}"` for `int` values. -/
def intToStr (i : Int) : Str :=
  if i < 0 then '-' :: natToStr i.natAbs else natToStr i.toNat

/-- Embeds Python `sep.join(parts)`. -/
def joinSep (sep : Str) : List Str → Str
  | [] => []
  | [x] => x
  | x :: xs => x ++ sep ++ joinSep sep xs

/-! ## Quick sanity checks on the text utilities -/

example : splitNl ("a\nb").data = [['a'], ['b']] := by decide
example : joinNl [['a'], ['b']] = ('a' :: '\n' :: ['b']) := by decide
example : natToStr 120 = ['1', '2', '0'] := by decide
example : intToStr (-7) = ['-', '7'] := by decide
example : hasSub ("bc").data ("abcd").data = true := by decide
example : hasSub ("bd").data ("abcd").data = false := by decide

/-! ## Data model

Embeds the rows of the SQLite schema created in `init_db` (`src/db.py`) and
the dictionaries produced by `_row_to_item` / `_row_to_outfit`. -/

/-- A `wardrobe_items` row, as the dict produced by `_row_to_item`
(`src/db.py`): JSON columns `colors`/`seasons` already parsed to lists. -/
structure Item where
  id : Int
  name : Str
  category : Str
  subcategory : Str
  colors : List Str
  pattern : Str
  material : Str
  formality : Int
  seasons : List Str
  active : Bool
deriving DecidableEq, Repr

/-- A `wear_log` row (`src/db.py`): the table has
`UNIQUE(item_id, date_worn)`.  `date_worn` is a day number (ISO date
strings compare lexicographically exactly as day numbers compare). -/
structure WearRow where
  item_id : Int
  outfit_id : Option Int
  date_worn : Int
deriving DecidableEq, Repr

/-- A `battles` row as the dict produced by `get_battle_history`
(`src/db.py`): the two JSON id columns already parsed to lists. -/
structure Battle where
  outfit_a_ids : List Int
  outfit_b_ids : List Int
  outfit_a_name : Str
  outfit_b_name : Str
  winner : Str
  occasion : Str
  weather_summary : Option Str
deriving DecidableEq, Repr

/-- An `outfits` row (`src/db.py`, saved outfits). -/
structure SavedOutfit where
  name : Str
  occasion : Str
  weather_summary : Str
  item_ids : List Int
  reasoning : Str
  rating : Option Int
deriving DecidableEq, Repr

/-- The persistent store: the SQLite tables plus the current date
(`date('now')` / `date.today()`) as a day number. -/
structure Store where
  items : List Item
  wear_log : List WearRow
  battles : List Battle
  outfits : List SavedOutfit
  today : Int
deriving DecidableEq, Repr

/-! ## Catalogue store operations (embedding `src/db.py`) -/

/-- Embeds `get_all_items` (src/db.py): `SELECT * FROM wardrobe_items` with
the optional `active`, `category` and formality-range SQL filters, then the
Python-side season filter.  The `ORDER BY created_at DESC` clause only
permutes the result; the store list is taken in query order. -/
def get_all_items (s : Store) (active_only : Bool) (category : Option Str)
    (seasons : Option (List Str)) (formality_min formality_max : Int) :
    List Item :=
  let base := s.items.filter (fun it =>
    (!active_only || it.active) &&
    (match category with
     | none => true
     | some c => it.category == c) &&
    (if formality_min > 1 || formality_max < 5 then
       decide (formality_min ≤ it.formality) && decide (it.formality ≤ formality_max)
     else true))
  match seasons with
  | none => base
  | some ss => base.filter (fun it => ss.any (fun x => it.seasons.contains x))

/-- Embeds `get_item` (src/db.py): `SELECT * FROM wardrobe_items WHERE id = ?`
(the first row with that primary key, `None` if absent). -/
def get_item (s : Store) (item_id : Int) : Option Item :=
  s.items.find? (fun it => it.id == item_id)

/-- Embeds `get_items_worn_recently` (src/db.py):
`SELECT DISTINCT item_id FROM wear_log WHERE date_worn >= date('now','-N days')`. -/
def get_items_worn_recently (s : Store) (days : Nat) : List Int :=
  ((s.wear_log.filter (fun r => decide (s.today - (days : Int) ≤ r.date_worn))).map
    (fun r => r.item_id)).dedup

/-- Embeds `log_wear` (src/db.py): `INSERT INTO wear_log`.  Two enforced
constraints can make the insert raise `sqlite3.IntegrityError`: the
foreign key `item_id REFERENCES wardrobe_items(id)` (enforced because
`get_connection` runs `PRAGMA foreign_keys = ON`), and
`UNIQUE(item_id, date_worn)`.  Either violation is caught by the function
and turned into `False` with no row inserted.  Returns the updated store
and the success flag. -/
def log_wear (s : Store) (item_id : Int) (date_worn : Int)
    (outfit_id : Option Int) : Store × Bool :=
  if !(s.items.any (fun it => it.id == item_id)) ||
      s.wear_log.any (fun r => r.item_id == item_id && r.date_worn == date_worn) then
    (s, false)
  else
    ({ s with wear_log := s.wear_log ++ [⟨item_id, outfit_id, date_worn⟩] }, true)

/-- Embeds `save_battle` (src/db.py): appends one row to the `battles`
table; returns the store and the new row id (`lastrowid`). -/
def save_battle (s : Store) (outfit_a_ids outfit_b_ids : List Int)
    (outfit_a_name outfit_b_name winner occasion : Str)
    (weather_summary : Option Str) : Store × Nat :=
  ({ s with battles := s.battles ++
      [⟨outfit_a_ids, outfit_b_ids, outfit_a_name, outfit_b_name,
        winner, occasion, weather_summary⟩] },
   s.battles.length + 1)

/-- Association-list update embedding the Python dict update
`d[k] = d.get(k, 0) + 1` used by `get_battle_item_stats`: bump in place if
the key is present, append `(k, 1)` otherwise (dict insertion order). -/
def bump (m : List (Int × Nat)) (k : Int) : List (Int × Nat) :=
  match m with
  | [] => [(k, 1)]
  | (k', n) :: rest => if k' = k then (k', n + 1) :: rest else (k', n) :: bump rest k

/-- Embeds Python `d.get(k, 0)` on the dicts built by `bump`. -/
def lookupD (m : List (Int × Nat)) (k : Int) : Nat :=
  match m with
  | [] => 0
  | (k', n) :: rest => if k' = k then n else lookupD rest k

/-- Embeds the aggregation loop of `get_battle_item_stats` (src/db.py):
fold the battle history (as returned by `get_battle_history`) into
per-item win and loss dicts.  `winner == "a"` credits side a's ids with
wins and side b's with losses, any other winner tag the converse. -/
def get_battle_item_stats (battles : List Battle) :
    List (Int × Nat) × List (Int × Nat) :=
  battles.foldl
    (fun wl b =>
      let wi := if b.winner = ['a'] then b.outfit_a_ids else b.outfit_b_ids
      let li := if b.winner = ['a'] then b.outfit_b_ids else b.outfit_a_ids
      (wi.foldl bump wl.1, li.foldl bump wl.2))
    ([], [])

/-! ## Outfit engine (embedding `src/outfits.py`) -/

/-- A garment record as consumed by `build_wardrobe_manifest`: a Python
dict in which `id`, `name`, `category` are accessed with `item[...]`
(required) and the remaining fields with `item.get(...)` (optional). -/
structure GarmentRec where
  id : Int
  name : Str
  category : Str
  subcategory : Option Str
  colors : Option (List Str)
  pattern : Option Str
  material : Option Str
  formality : Option Int
  seasons : Option (List Str)
deriving DecidableEq, Repr

/-- Embeds the per-item f-string of `build_wardrobe_manifest`
(src/outfits.py): missing optional fields fall back to the `.get` defaults
(`''`, `[]`, `'solid'`, `''`, `3`, `[]`). -/
def manifest_line (it : GarmentRec) : Str :=
  ("ID:").data ++ intToStr it.id ++ (" | ").data ++ it.name ++ (" | ").data ++
  it.category ++ ("/").data ++ it.subcategory.getD [] ++ (" | ").data ++
  joinSep (", ").data (it.colors.getD []) ++ (" | ").data ++
  it.pattern.getD ("solid").data ++ (" | ").data ++
  it.material.getD [] ++ (" | formality:").data ++
  intToStr (it.formality.getD 3) ++ (" | ").data ++
  joinSep (",").data (it.seasons.getD [])

/-- Embeds `build_wardrobe_manifest` (src/outfits.py): one formatted line
per item, joined with newlines. -/
def build_wardrobe_manifest (items : List GarmentRec) : Str :=
  joinNl (items.map manifest_line)

/-- Embeds `get_available_items` (src/outfits.py): active items minus the
recently-worn set minus the explicit exclusions. -/
def get_available_items (s : Store) (no_repeat_days : Nat)
    (exclude_ids : List Int) : List Item :=
  let all_items := get_all_items s true none none 1 5
  let recently_worn := get_items_worn_recently s no_repeat_days
  all_items.filter (fun it =>
    !(recently_worn.contains it.id) && !(exclude_ids.contains it.id))

/-- An outfit candidate dict produced by the generation step, as consumed
by `_cast_vote` / `resolve_outfit_items`: every field is read with
`.get(...)`, so every field is optional. -/
structure Candidate where
  name : Option Str
  item_ids : Option (List Int)
  reasoning : Option Str
  style_notes : Option Str
deriving DecidableEq, Repr

/-- Embeds `resolve_outfit_items` (src/outfits.py): map the candidate's
`item_ids` to full items via `get_item`, silently dropping ids that do not
resolve. -/
def resolve_outfit_items (s : Store) (outfit : Candidate) : List Item :=
  (outfit.item_ids.getD []).filterMap (get_item s)

/-! ## UI-layer compositions (embedding `src/ui/page_style_me.py`) -/

/-- Embeds the availability block of `render` (src/ui/page_style_me.py,
lines 337-350): compute the available items, resolve the locked ids
(dropping unresolvable ones), then append every locked item whose id is
not already among the available ids. -/
def availableWithLocked (s : Store) (no_repeat : Nat) (excluded : List Int)
    (locked : List Int) : List Item :=
  let available := get_available_items s no_repeat excluded
  let locked_items := (locked.map (get_item s)).filterMap id
  let locked_in_available := available.map (fun it => it.id)
  available ++ locked_items.filter (fun li => !(locked_in_available.contains li.id))

/-- Embeds `_cast_vote` (src/ui/page_style_me.py): save one battle record,
then log one wear event (for today) per resolvable item of the winning
candidate.  `occasion` and `weather` stand for the session-state context
stored at generation time. -/
def cast_vote (s : Store) (outfit_a outfit_b : Candidate) (winner occasion : Str)
    (weather : Option Str) : Store :=
  let s1 := (save_battle s (outfit_a.item_ids.getD []) (outfit_b.item_ids.getD [])
    (outfit_a.name.getD ("Outfit A").data) (outfit_b.name.getD ("Outfit B").data)
    winner occasion weather).1
  let winning := if winner = ['a'] then outfit_a else outfit_b
  let winning_items := resolve_outfit_items s1 winning
  winning_items.foldl (fun st it => (log_wear st it.id st.today none).1) s1

/-! ## JSON values and a character-level embedding of `json.loads`

`generate_outfits` (src/outfits.py) parses the model response with the
standard-library `json.loads`.  We embed it as a pushdown automaton that
consumes the text one character at a time.  Strings are decoded with the
standard escapes; numeric literals are kept as their source text (their
numeric value plays no role in any claim); `NaN`/`Infinity`/`-Infinity`
are accepted as `json.loads` accepts them by default.  Raw control
characters inside string literals are rejected (`strict=True` default). -/

/-- A parsed JSON value. -/
inductive Json where
  | null
  | bool (b : Bool)
  | num (lit : Str)
  | str (s : Str)
  | arr (elems : List Json)
  | obj (members : List (Str × Json))

/-- Micro-state while consuming a numeric literal: which characters may
come next. -/
inductive NumSt where
  | sign | zero | intg | dot | frac | ex | esign | expn
deriving DecidableEq

/-- A stack frame of the JSON automaton: an open container under
construction (accumulated children kept in reverse). -/
inductive Frame where
  | arr (elems : List Json)
  | obj (members : List (Str × Json))
  | objV (members : List (Str × Json)) (key : Str)

/-- The mode of the JSON automaton between two characters. -/
inductive Mode where
  | val
  | arrFirst
  | objFirst
  | key
  | colon
  | strM (acc : Str) (isKey : Bool)
  | strEsc (acc : Str) (isKey : Bool)
  | strU (acc : Str) (isKey : Bool) (need : Nat) (code : Nat)
  | numM (st : NumSt) (acc : Str)
  | lit (rest : Str) (v : Json)
  | after
  | topDone (v : Json)

/-- Automaton state: current mode and stack of open containers. -/
abbrev JSt := Mode × List Frame

/-- JSON whitespace, exactly the four characters `json.loads` skips. -/
def isJsonWs (c : Char) : Bool :=
  c == ' ' || c == '\t' || c == '\n' || c == '\r'

/-- Digits 1-9. -/
def isDigit19 (c : Char) : Bool := '1' ≤ c && c ≤ '9'

/-- Hex digit value of a character, if any. -/
def hexVal (c : Char) : Option Nat :=
  if '0' ≤ c && c ≤ '9' then some (c.toNat - 48)
  else if 'a' ≤ c && c ≤ 'f' then some (c.toNat - 87)
  else if 'A' ≤ c && c ≤ 'F' then some (c.toNat - 55)
  else none

/-- A value just finished: fold it into the enclosing container (or mark
the parse complete when the stack is empty). -/
def reduceVal (v : Json) (stk : List Frame) : Option JSt :=
  match stk with
  | [] => some (.topDone v, [])
  | .arr es :: r => some (.after, .arr (v :: es) :: r)
  | .objV mem k :: r => some (.after, .obj ((k, v) :: mem) :: r)
  | .obj _ :: _ => none

/-- Dispatch on the first character of a value. -/
def startVal (c : Char) (stk : List Frame) : Option JSt :=
  if c == '"' then some (.strM [] false, stk)
  else if c == '{' then some (.objFirst, .obj [] :: stk)
  else if c == '[' then some (.arrFirst, .arr [] :: stk)
  else if c == 't' then some (.lit ['r', 'u', 'e'] (.bool true), stk)
  else if c == 'f' then some (.lit ['a', 'l', 's', 'e'] (.bool false), stk)
  else if c == 'n' then some (.lit ['u', 'l', 'l'] .null, stk)
  else if c == 'N' then some (.lit ['a', 'N'] (.num ['N', 'a', 'N']), stk)
  else if c == 'I' then some (.lit ("nfinity").data (.num ("Infinity").data), stk)
  else if c == '-' then some (.numM .sign ['-'], stk)
  else if c == '0' then some (.numM .zero ['0'], stk)
  else if isDigit19 c then some (.numM .intg [c], stk)
  else none

/-- Process a character in `after` mode: only whitespace, a separator or
the closer of the enclosing container is legal. -/
def inAfter (stk : List Frame) (c : Char) : Option JSt :=
  if isJsonWs c then some (.after, stk)
  else
    match stk with
    | .arr es :: r =>
      if c == ',' then some (.val, .arr es :: r)
      else if c == ']' then reduceVal (.arr es.reverse) r
      else none
    | .obj mem :: r =>
      if c == ',' then some (.key, .obj mem :: r)
      else if c == '}' then reduceVal (.obj mem.reverse) r
      else none
    | _ => none

/-- A numeric literal just ended (the current character is not part of
it): emit the number, then process the character in the resulting mode. -/
def endVal (v : Json) (stk : List Frame) (c : Char) : Option JSt :=
  match reduceVal v stk with
  | some (.after, stk') => inAfter stk' c
  | some (.topDone v', _) => if isJsonWs c then some (.topDone v', []) else none
  | _ => none

/-- One character inside a numeric literal (accumulator reversed). -/
def numStep (st : NumSt) (acc : Str) (stk : List Frame) (c : Char) : Option JSt :=
  match st with
  | .sign =>
    if c == '0' then some (.numM .zero (c :: acc), stk)
    else if isDigit19 c then some (.numM .intg (c :: acc), stk)
    else if c == 'I' then some (.lit ("nfinity").data (.num ("-Infinity").data), stk)
    else none
  | .zero =>
    if c == '.' then some (.numM .dot (c :: acc), stk)
    else if c == 'e' || c == 'E' then some (.numM .ex (c :: acc), stk)
    else endVal (.num acc.reverse) stk c
  | .intg =>
    if c.isDigit then some (.numM .intg (c :: acc), stk)
    else if c == '.' then some (.numM .dot (c :: acc), stk)
    else if c == 'e' || c == 'E' then some (.numM .ex (c :: acc), stk)
    else endVal (.num acc.reverse) stk c
  | .dot =>
    if c.isDigit then some (.numM .frac (c :: acc), stk) else none
  | .frac =>
    if c.isDigit then some (.numM .frac (c :: acc), stk)
    else if c == 'e' || c == 'E' then some (.numM .ex (c :: acc), stk)
    else endVal (.num acc.reverse) stk c
  | .ex =>
    if c.isDigit then some (.numM .expn (c :: acc), stk)
    else if c == '+' || c == '-' then some (.numM .esign (c :: acc), stk)
    else none
  | .esign =>
    if c.isDigit then some (.numM .expn (c :: acc), stk) else none
  | .expn =>
    if c.isDigit then some (.numM .expn (c :: acc), stk)
    else endVal (.num acc.reverse) stk c

/-- One character inside a string literal. -/
def strStep (acc : Str) (isKey : Bool) (stk : List Frame) (c : Char) : Option JSt :=
  if c == '"' then
    if isKey then
      match stk with
      | .obj mem :: r => some (.colon, .objV mem acc.reverse :: r)
      | _ => none
    else reduceVal (.str acc.reverse) stk
  else if c == '\\' then some (.strEsc acc isKey, stk)
  else if c.toNat < 32 then none
  else some (.strM (c :: acc) isKey, stk)

/-- The character after a backslash in a string literal. -/
def escStep (acc : Str) (isKey : Bool) (stk : List Frame) (c : Char) : Option JSt :=
  if c == '"' then some (.strM ('"' :: acc) isKey, stk)
  else if c == '\\' then some (.strM ('\\' :: acc) isKey, stk)
  else if c == '/' then some (.strM ('/' :: acc) isKey, stk)
  else if c == 'b' then some (.strM (Char.ofNat 8 :: acc) isKey, stk)
  else if c == 'f' then some (.strM (Char.ofNat 12 :: acc) isKey, stk)
  else if c == 'n' then some (.strM ('\n' :: acc) isKey, stk)
  else if c == 'r' then some (.strM ('\r' :: acc) isKey, stk)
  else if c == 't' then some (.strM ('\t' :: acc) isKey, stk)
  else if c == 'u' then some (.strU acc isKey 4 0, stk)
  else none

/-- One of the four hex digits of a `\u` escape. -/
def uStep (acc : Str) (isKey : Bool) (need code : Nat) (stk : List Frame)
    (c : Char) : Option JSt :=
  match hexVal c with
  | none => none
  | some d =>
    if need ≤ 1 then some (.strM (Char.ofNat (code * 16 + d) :: acc) isKey, stk)
    else some (.strU acc isKey (need - 1) (code * 16 + d), stk)

/-- One character of a keyword literal (`true`, `false`, `null`, `NaN`,
`Infinity`). -/
def litStep (rest : Str) (v : Json) (stk : List Frame) (c : Char) : Option JSt :=
  match rest with
  | [] => none
  | [r] => if c == r then reduceVal v stk else none
  | r :: rs => if c == r then some (.lit rs v, stk) else none

/-- The transition function of the JSON automaton. -/
def jstep (s : JSt) (c : Char) : Option JSt :=
  match s with
  | (.val, stk) => if isJsonWs c then some (.val, stk) else startVal c stk
  | (.arrFirst, stk) =>
    if isJsonWs c then some (.arrFirst, stk)
    else if c == ']' then
      match stk with
      | .arr es :: r => reduceVal (.arr es.reverse) r
      | _ => none
    else startVal c stk
  | (.objFirst, stk) =>
    if isJsonWs c then some (.objFirst, stk)
    else if c == '}' then
      match stk with
      | .obj mem :: r => reduceVal (.obj mem.reverse) r
      | _ => none
    else if c == '"' then some (.strM [] true, stk)
    else none
  | (.key, stk) =>
    if isJsonWs c then some (.key, stk)
    else if c == '"' then some (.strM [] true, stk)
    else none
  | (.colon, stk) =>
    if isJsonWs c then some (.colon, stk)
    else if c == ':' then some (.val, stk)
    else none
  | (.strM acc k, stk) => strStep acc k stk c
  | (.strEsc acc k, stk) => escStep acc k stk c
  | (.strU acc k need code, stk) => uStep acc k need code stk c
  | (.numM st acc, stk) => numStep st acc stk c
  | (.lit rest v, stk) => litStep rest v stk c
  | (.after, stk) => inAfter stk c
  | (.topDone v, _) => if isJsonWs c then some (.topDone v, []) else none

/-- Run the automaton over a text from a given (possibly failed) state. -/
def runJ (s : Option JSt) : Str → Option JSt
  | [] => s
  | c :: cs => runJ (s.bind (fun st => jstep st c)) cs

/-- Accept at end of input: either a completed top-level value, or a
numeric literal that is still open but terminable at top level. -/
def finishJ (s : JSt) : Option Json :=
  match s with
  | (.topDone v, _) => some v
  | (.numM st acc, stk) =>
    if st = .zero || st = .intg || st = .frac || st = .expn then
      match reduceVal (.num acc.reverse) stk with
      | some (.topDone v, _) => some v
      | _ => none
    else none
  | _ => none

/-- Embeds `json.loads` (Python standard library, as called by
`generate_outfits`): parse a complete JSON text, `none` on any error. -/
def json_loads (t : Str) : Option Json :=
  (runJ (some (.val, [])) t).bind finishJ

/-! ## De-fencing and response handling (embedding `generate_outfits`) -/

/-- Embeds the fence-stripping loop body of `generate_outfits`
(src/outfits.py, lines 123-135): walk the lines with an `in_block` flag;
the first fence line starts capture, the second ends it, lines outside the
block are dropped. -/
def collectFence : List Str → Bool → List Str
  | [], _ => []
  | l :: ls, false =>
    if fenceStart l then collectFence ls true else collectFence ls false
  | l :: ls, true =>
    if fenceStart l then [] else l :: collectFence ls true

/-- Embeds the fence-stripping conditional of `generate_outfits`: if the
text starts with a fence, re-join the captured block, otherwise leave the
text unchanged. -/
def stripFence (t : Str) : Str :=
  if fenceStart t then joinNl (collectFence (splitNl t) false) else t

/-- One element of the list `generate_outfits` returns: either a parsed
outfit object or the error dict
`{"error": "Failed to parse AI response", "raw_response": raw_text}`. -/
inductive RespItem where
  | parsed (j : Json)
  | errorItem (raw : Str)

/-- Embeds the response-handling tail of `generate_outfits`
(src/outfits.py, lines 122-146): strip optional fencing, parse as JSON;
on failure return the single-element error list carrying the unparsed
text; a non-list value is wrapped into a one-element list. -/
def handle_response (raw : Str) : List RespItem :=
  let txt := stripFence raw
  match json_loads txt with
  | none => [.errorItem txt]
  | some (.arr l) => l.map .parsed
  | some v => [.parsed v]

/-- Wrap a text in triple-backtick fencing with an info string on the
opening fence (the claims' "response wrapped in fencing"). -/
def fenceWrap (info t : Str) : Str :=
  bt3 ++ info ++ '\n' :: (t ++ '\n' :: bt3)

/-! Sanity checks of the `json.loads` embedding on concrete inputs. -/

example : json_loads ("[1, 2]").data = some (.arr [.num ['1'], .num ['2']]) := rfl
example : json_loads ("[]").data = some (.arr []) := rfl
example : json_loads ("  -12.5e3 ").data = some (.num ("-12.5e3").data) := rfl
example :
    json_loads ('{' :: ("\"a\": [true, null]").data ++ ['}']) =
      some (.obj [(['a'], .arr [.bool true, .null])]) := rfl
example : json_loads ("01").data = none := rfl
example : json_loads ("[1,]").data = none := rfl
example : json_loads ('{' :: ("\"a\" 1").data ++ ['}']) = none := rfl
example : json_loads ("\"a\nb\"").data = none := rfl
example : json_loads ("\"a\\nb\"").data = some (.str ("a\nb").data) := rfl
example : json_loads ("tru").data = none := rfl
example : json_loads ("[1, 2] x").data = none := rfl
example : json_loads ("-Infinity").data = some (.num ("-Infinity").data) := rfl
example : json_loads [btChar] = none := rfl
example :
    stripFence (fenceWrap ("json").data ("[1, 2]").data) = ("[1, 2]").data := rfl

/-! ## Lemmas about the text utilities -/

/-- A text free of newline characters. -/
def NoNl (l : Str) : Prop := '\n' ∉ l

instance : DecidablePred NoNl := fun l => by unfold NoNl; infer_instance

theorem splitNl_cons_nl (cs : Str) : splitNl ('\n' :: cs) = [] :: splitNl cs := by
  simp [splitNl]

theorem splitNl_cons_other {c : Char} (cs : Str) (hc : c ≠ '\n')
    {x : Str} {xs : List Str} (hx : splitNl cs = x :: xs) :
    splitNl (c :: cs) = (c :: x) :: xs := by
  simp [splitNl, hc, hx]

theorem splitNl_ne_nil (t : Str) : splitNl t ≠ [] := by
  induction t with
  | nil => simp [splitNl]
  | cons c cs ih =>
    by_cases hc : c = '\n'
    · simp [splitNl, hc]
    · simp only [splitNl, if_neg hc]
      cases h : splitNl cs with
      | nil => simp
      | cons x xs => simp

theorem joinNl_cons_cons (c : Char) (h : Str) (tl : List Str) :
    joinNl ((c :: h) :: tl) = c :: joinNl (h :: tl) := by
  cases tl <;> rfl

theorem joinNl_splitNl (t : Str) : joinNl (splitNl t) = t := by
  induction t with
  | nil => rfl
  | cons c cs ih =>
    by_cases hc : c = '\n'
    · subst hc
      simp only [splitNl, if_pos rfl]
      obtain ⟨x, xs, hx⟩ := List.exists_cons_of_ne_nil (splitNl_ne_nil cs)
      rw [hx]
      show joinNl ([] :: x :: xs) = '\n' :: cs
      rw [show joinNl ([] :: x :: xs) = [] ++ '\n' :: joinNl (x :: xs) from rfl]
      rw [← hx, ih]
      rfl
    · simp only [splitNl, if_neg hc]
      obtain ⟨x, xs, hx⟩ := List.exists_cons_of_ne_nil (splitNl_ne_nil cs)
      rw [hx, joinNl_cons_cons, ← hx, ih]

theorem splitNl_append (a b : Str) :
    splitNl (a ++ '\n' :: b) = splitNl a ++ splitNl b := by
  induction a with
  | nil => simp [splitNl]
  | cons c cs ih =>
    rw [List.cons_append]
    by_cases hc : c = '\n'
    · subst hc
      rw [splitNl_cons_nl, splitNl_cons_nl, ih, List.cons_append]
    · obtain ⟨x, xs, hx⟩ := List.exists_cons_of_ne_nil (splitNl_ne_nil cs)
      rw [splitNl_cons_other cs hc hx,
        splitNl_cons_other (cs ++ '\n' :: b) hc (by rw [ih, hx]; rfl)]
      rfl

theorem splitNl_no_nl (a : Str) (h : NoNl a) : splitNl a = [a] := by
  induction a with
  | nil => rfl
  | cons c cs ih =>
    have hc : c ≠ '\n' := by
      intro hcc; exact h (hcc ▸ List.mem_cons_self c cs)
    have hcs : NoNl cs := fun hm => h (List.mem_cons_of_mem _ hm)
    simp only [splitNl, if_neg hc, ih hcs]

theorem splitNl_head_pref (t : Str) :
    ∃ h tl r, splitNl t = h :: tl ∧ t = h ++ r := by
  induction t with
  | nil => exact ⟨[], [], [], rfl, rfl⟩
  | cons c cs ih =>
    by_cases hc : c = '\n'
    · exact ⟨[], splitNl cs, c :: cs, by simp [splitNl, hc], rfl⟩
    · obtain ⟨h, tl, r, hsplit, hpref⟩ := ih
      refine ⟨c :: h, tl, r, ?_, by rw [List.cons_append, ← hpref]⟩
      simp only [splitNl, if_neg hc, hsplit]

theorem splitNl_tail_after_nl (t : Str) :
    ∀ l ∈ (splitNl t).tail, ∃ a r, t = a ++ '\n' :: (l ++ r) := by
  induction t with
  | nil => simp [splitNl]
  | cons c cs ih =>
    by_cases hc : c = '\n'
    · subst hc
      rw [splitNl_cons_nl, List.tail_cons]
      intro l hl
      obtain ⟨h, tl, r, hsplit, hpref⟩ := splitNl_head_pref cs
      rw [hsplit] at hl
      rcases List.mem_cons.mp hl with hhd | htl
      · exact ⟨[], r, by rw [hhd, ← hpref]; rfl⟩
      · obtain ⟨a, r', ha⟩ := ih l (by rw [hsplit]; exact htl)
        exact ⟨'\n' :: a, r', by rw [ha]; rfl⟩
    · intro l hl
      obtain ⟨h, tl, r, hsplit, _⟩ := splitNl_head_pref cs
      rw [splitNl_cons_other cs hc hsplit, List.tail_cons] at hl
      obtain ⟨a, r', ha⟩ := ih l (by rw [hsplit]; exact hl)
      exact ⟨c :: a, r', by rw [ha]; rfl⟩

theorem isPref_append_self (p b : Str) : isPref p (p ++ b) = true := by
  induction p with
  | nil => rfl
  | cons c cs ih => simp [isPref, ih]

theorem isPref_exists {p t : Str} (h : isPref p t = true) : ∃ r, t = p ++ r := by
  induction p generalizing t with
  | nil => exact ⟨t, rfl⟩
  | cons c cs ih =>
    cases t with
    | nil => simp [isPref] at h
    | cons d ds =>
      simp only [isPref, Bool.and_eq_true, beq_iff_eq] at h
      obtain ⟨r, hr⟩ := ih h.2
      exact ⟨r, by rw [h.1, hr]; rfl⟩

theorem hasSub_of_isPref {p t : Str} (h : isPref p t = true) : hasSub p t = true := by
  cases t with
  | nil => exact h
  | cons c cs => simp [hasSub, h]

theorem hasSub_append_left (p a t : Str) (h : hasSub p t = true) :
    hasSub p (a ++ t) = true := by
  induction a with
  | nil => exact h
  | cons c cs ih => simp [hasSub, ih]

theorem hasSub_intro (p a b : Str) : hasSub p (a ++ (p ++ b)) = true :=
  hasSub_append_left p a _ (hasSub_of_isPref (isPref_append_self p b))

theorem noNl_append {a b : Str} (ha : NoNl a) (hb : NoNl b) : NoNl (a ++ b) := by
  unfold NoNl at *
  simp only [List.mem_append]
  tauto

theorem digitChar_ne_nl {d : Nat} (h : d < 10) : digitChar d ≠ '\n' := by
  interval_cases d <;> decide

theorem natToStrAux_noNl :
    ∀ (fuel n : Nat) (acc : Str), NoNl acc → NoNl (natToStrAux fuel n acc) := by
  intro fuel
  induction fuel with
  | zero => intro n acc h; exact h
  | succ f ih =>
    intro n acc h
    unfold natToStrAux
    by_cases hn : n < 10
    · rw [if_pos hn]
      intro hm
      rcases List.mem_cons.mp hm with he | hm
      · exact digitChar_ne_nl hn he.symm
      · exact h hm
    · rw [if_neg hn]
      refine ih (n / 10) _ ?_
      intro hm
      rcases List.mem_cons.mp hm with he | hm
      · exact digitChar_ne_nl (Nat.mod_lt n (by omega)) he.symm
      · exact h hm

theorem natToStr_noNl (n : Nat) : NoNl (natToStr n) :=
  natToStrAux_noNl (n + 1) n [] (by simp [NoNl])

theorem intToStr_noNl (i : Int) : NoNl (intToStr i) := by
  unfold intToStr
  by_cases hi : i < 0
  · rw [if_pos hi]
    intro hm
    rcases List.mem_cons.mp hm with he | hm
    · exact absurd he.symm (by decide)
    · exact natToStr_noNl _ hm
  · rw [if_neg hi]; exact natToStr_noNl _

theorem joinSep_noNl (sep : Str) (parts : List Str) (hs : NoNl sep)
    (hp : ∀ x ∈ parts, NoNl x) : NoNl (joinSep sep parts) := by
  induction parts with
  | nil => simp [joinSep, NoNl]
  | cons x xs ih =>
    cases xs with
    | nil => exact hp x (by simp)
    | cons y ys =>
      show NoNl (x ++ sep ++ joinSep sep (y :: ys))
      exact noNl_append (noNl_append (hp x (by simp)) hs)
        (ih (fun z hz => hp z (List.mem_cons_of_mem x hz)))

/-! ## The Manifest Builder claims (C4, C5) -/

/-- No field value of a garment record contains a newline character
(with missing optional fields read through their `.get` defaults). -/
def garmentNoNl (it : GarmentRec) : Prop :=
  NoNl it.name ∧ NoNl it.category ∧ NoNl (it.subcategory.getD []) ∧
  (∀ x ∈ it.colors.getD [], NoNl x) ∧ NoNl (it.pattern.getD ("solid").data) ∧
  NoNl (it.material.getD []) ∧ (∀ x ∈ it.seasons.getD [], NoNl x)

instance : DecidablePred garmentNoNl := fun it => by
  unfold garmentNoNl; infer_instance

theorem manifest_line_eq (it : GarmentRec) :
    ∃ rest, manifest_line it = (("ID:").data ++ intToStr it.id) ++ rest := by
  refine ⟨(" | ").data ++ it.name ++ (" | ").data ++ it.category ++ ("/").data ++
    it.subcategory.getD [] ++ (" | ").data ++
    joinSep (", ").data (it.colors.getD []) ++ (" | ").data ++
    it.pattern.getD ("solid").data ++ (" | ").data ++
    it.material.getD [] ++ (" | formality:").data ++
    intToStr (it.formality.getD 3) ++ (" | ").data ++
    joinSep (",").data (it.seasons.getD []), ?_⟩
  simp only [manifest_line, List.append_assoc]

theorem manifest_line_ne_nil (it : GarmentRec) : manifest_line it ≠ [] := by
  obtain ⟨rest, h⟩ := manifest_line_eq it
  rw [h]
  intro hc
  have h1 := (List.append_eq_nil.mp hc).1
  have h2 := (List.append_eq_nil.mp h1).1
  exact absurd h2 (by decide)

theorem manifest_line_noNl (it : GarmentRec) (h : garmentNoNl it) :
    NoNl (manifest_line it) := by
  obtain ⟨h1, h2, h3, h4, h5, h6, h7⟩ := h
  unfold manifest_line
  repeat' apply noNl_append
  all_goals first
    | exact h1
    | exact h2
    | exact h3
    | exact h5
    | exact h6
    | exact intToStr_noNl _
    | exact joinSep_noNl _ _ (by decide) h4
    | exact joinSep_noNl _ _ (by decide) h7
    | decide

theorem splitNl_joinNl (ls : List Str) (h1 : ls ≠ []) (h2 : ∀ l ∈ ls, NoNl l) :
    splitNl (joinNl ls) = ls := by
  induction ls with
  | nil => exact absurd rfl h1
  | cons l ls' ih =>
    cases ls' with
    | nil => exact splitNl_no_nl l (h2 l (by simp))
    | cons x xs =>
      show splitNl (l ++ '\n' :: joinNl (x :: xs)) = l :: x :: xs
      rw [splitNl_append, splitNl_no_nl l (h2 l (by simp)),
        ih (by simp) (fun z hz => h2 z (List.mem_cons_of_mem l hz))]
      rfl

theorem joinNl_infix (ls : List Str) (l : Str) (h : l ∈ ls) :
    ∃ u v, joinNl ls = u ++ (l ++ v) := by
  induction ls with
  | nil => cases h
  | cons x xs ih =>
    rcases List.mem_cons.mp h with rfl | hxs
    · cases xs with
      | nil => exact ⟨[], [], by simp [joinNl]⟩
      | cons y ys => exact ⟨[], '\n' :: joinNl (y :: ys), rfl⟩
    · obtain ⟨u, v, hu⟩ := ih hxs
      have hxs_ne : xs ≠ [] := by intro hh; rw [hh] at hxs; cases hxs
      obtain ⟨z, zs, rfl⟩ := List.exists_cons_of_ne_nil hxs_ne
      refine ⟨x ++ '\n' :: u, v, ?_⟩
      show x ++ '\n' :: joinNl (z :: zs) = (x ++ '\n' :: u) ++ (l ++ v)
      rw [hu, List.append_assoc]
      rfl

/-- Number of lines of a text: zero for the empty text, otherwise the
number of newline-separated chunks. -/
def numLines (t : Str) : Nat := if t = [] then 0 else (splitNl t).length

/-- Helper: a joined line block whose first line is non-empty is itself
non-empty. -/
theorem joinNl_cons_ne_nil (l : Str) (ls : List Str) (hl : l ≠ []) :
    joinNl (l :: ls) ≠ [] := by
  cases ls with
  | nil => exact hl
  | cons x xs =>
    show l ++ '\n' :: joinNl (x :: xs) ≠ []
    simp

/-- A garment record whose name contains a newline character: the input on
which claim C4's "exactly one line per garment" fails. -/
def c4Rec : GarmentRec :=
  ⟨1, ("a\nb").data, ("top").data, none, none, none, none, none, none⟩

/-- C4, counterexample.  The claim states that for EVERY list of garment
records the manifest has exactly one line per input garment.  For the
single record `c4Rec`, whose free-text name contains a newline, the
manifest has two lines, not one. -/
theorem manifest_lines_counterexample :
    ¬ numLines (build_wardrobe_manifest [c4Rec]) = [c4Rec].length := by decide

/-- C4, amended.  For every list of garment records none of whose field
values contains a newline character, `build_wardrobe_manifest` produces
exactly one line of output per input garment; and (unconditionally) for
each input garment with id n the substring "ID:n" occurs in the output
text. -/
theorem manifest_lines_amended (items : List GarmentRec) :
    ((∀ it ∈ items, garmentNoNl it) →
      numLines (build_wardrobe_manifest items) = items.length) ∧
    (∀ it ∈ items,
      hasSub (("ID:").data ++ intToStr it.id) (build_wardrobe_manifest items) = true) := by
  constructor
  · intro h
    cases items with
    | nil => rfl
    | cons i is =>
      have hmap : (i :: is).map manifest_line = manifest_line i :: is.map manifest_line :=
        rfl
      have hnn : ∀ l ∈ manifest_line i :: is.map manifest_line, NoNl l := by
        intro l hl
        rw [← hmap] at hl
        obtain ⟨it, hit, rfl⟩ := List.mem_map.mp hl
        exact manifest_line_noNl it (h it hit)
      have hne : joinNl (manifest_line i :: is.map manifest_line) ≠ [] :=
        joinNl_cons_ne_nil _ _ (manifest_line_ne_nil i)
      unfold build_wardrobe_manifest numLines
      rw [hmap, if_neg hne, splitNl_joinNl _ (by simp) hnn]
      simp
  · intro it hit
    have hmem : manifest_line it ∈ items.map manifest_line :=
      List.mem_map_of_mem manifest_line hit
    obtain ⟨u, v, huv⟩ := joinNl_infix _ _ hmem
    obtain ⟨rest, hrest⟩ := manifest_line_eq it
    unfold build_wardrobe_manifest
    rw [huv, hrest, List.append_assoc]
    exact hasSub_intro _ _ _

/-- The manifest record used by C4's witness: an ordinary garment with no
newlines in any field. -/
def c4WRec : GarmentRec :=
  ⟨7, ("shirt").data, ("top").data, some ("tee").data, some [("navy").data],
   some ("solid").data, some ("cotton").data, some 3, some [("summer").data]⟩

/-- C4, witness: the amended theorem applied to the concrete one-record
list `[c4WRec]`. -/
theorem manifest_lines_amended_witness :
    numLines (build_wardrobe_manifest [c4WRec]) = 1 ∧
    hasSub (("ID:").data ++ intToStr 7) (build_wardrobe_manifest [c4WRec]) = true :=
  ⟨(manifest_lines_amended [c4WRec]).1 (by decide),
   (manifest_lines_amended [c4WRec]).2 c4WRec (by decide)⟩

/-- A record missing only the optional `pattern` field (C5 counterexample
input). -/
def c5Rec : GarmentRec :=
  ⟨1, ("n").data, ("top").data, some ("s").data, some [("navy").data], none,
   some ("m").data, some 2, some [("winter").data]⟩

/-- `c5Rec` with `pattern` explicitly present as the empty string: what
claim C5 says the rendering of a missing pattern looks like. -/
def c5RecEmptyPat : GarmentRec := { c5Rec with pattern := some [] }

/-- C5, counterexample.  The claim states every missing optional field
(pattern included) renders as empty.  But a record with `pattern` missing
renders differently from the same record with an explicitly empty
pattern: the code falls back to the `.get` default "solid", not to "". -/
theorem manifest_missing_counterexample :
    ¬ manifest_line c5Rec = manifest_line c5RecEmptyPat := by decide

/-- Replace every missing optional field of a garment record by its
`.get` default as written in `build_wardrobe_manifest`: empty for
subcategory, colors, material and seasons; "solid" for pattern; 3 for
formality. -/
def fillDefaults (r : GarmentRec) : GarmentRec :=
  { r with
    subcategory := some (r.subcategory.getD []),
    colors := some (r.colors.getD []),
    pattern := some (r.pattern.getD ("solid").data),
    material := some (r.material.getD []),
    formality := some (r.formality.getD 3),
    seasons := some (r.seasons.getD []) }

/-- C5, amended.  `build_wardrobe_manifest` never raises on a record with
missing optional fields; missing subcategory, colors, material and seasons
render as empty, while a missing pattern renders as the default "solid"
and a missing formality as the default 3 — formally, every record renders
exactly like the record with those defaults filled in explicitly. -/
theorem manifest_missing_amended (r : GarmentRec) :
    manifest_line r = manifest_line (fillDefaults r) := by
  simp [manifest_line, fillDefaults]

/-! ## The Stats Aggregator claims (C1, C10) -/

/-- Number of occurrences of an id in an id list (no deduplication). -/
def countId : List Int → Int → Nat
  | [], _ => 0
  | a :: as, k => (if a = k then 1 else 0) + countId as k

theorem lookupD_bump (m : List (Int × Nat)) (k a : Int) :
    lookupD (bump m a) k = lookupD m k + (if a = k then 1 else 0) := by
  induction m with
  | nil =>
    by_cases h : a = k <;> simp [bump, lookupD, h]
  | cons p rest ih =>
    obtain ⟨k', n⟩ := p
    by_cases h1 : k' = a
    · subst h1
      by_cases h2 : k' = k
      · subst h2
        simp [bump, lookupD]
      · simp [bump, lookupD, h2]
    · by_cases h2 : k' = k
      · have hak : ¬ a = k := fun hc => h1 (h2.trans hc.symm)
        subst h2
        simp [bump, lookupD, h1, hak]
      · simp [bump, lookupD, h1, h2, ih]

theorem lookupD_foldl_bump (l : List Int) (m : List (Int × Nat)) (k : Int) :
    lookupD (l.foldl bump m) k = lookupD m k + countId l k := by
  induction l generalizing m with
  | nil => simp [countId]
  | cons a as ih =>
    show lookupD (as.foldl bump (bump m a)) k = _
    rw [ih (bump m a), lookupD_bump]
    simp [countId]
    omega

/-- C10.  In `get_battle_item_stats`, win and loss counts accumulate per
occurrence, not per distinct id: appending one battle to the history adds
to each garment's win count the number of occurrences of its id in the
winning side's stored id list (and analogously for losses) — the id lists
are not deduplicated before counting. -/
theorem battle_stats_per_occurrence (battles : List Battle) (b : Battle) (k : Int) :
    lookupD (get_battle_item_stats (battles ++ [b])).1 k =
      lookupD (get_battle_item_stats battles).1 k +
        countId (if b.winner = ['a'] then b.outfit_a_ids else b.outfit_b_ids) k ∧
    lookupD (get_battle_item_stats (battles ++ [b])).2 k =
      lookupD (get_battle_item_stats battles).2 k +
        countId (if b.winner = ['a'] then b.outfit_b_ids else b.outfit_a_ids) k := by
  unfold get_battle_item_stats
  rw [List.foldl_append]
  constructor <;> · show lookupD (List.foldl bump _ _) k = _; rw [lookupD_foldl_bump]

/-- The two battles of the spec's worked example (C1), in the order the
claim lists them. -/
def c1Hist : List Battle :=
  [⟨[1, 2], [3, 4], ("A").data, ("B").data, ['a'], ("test").data, none⟩,
   ⟨[5, 6], [1, 3], ("C").data, ("D").data, ['b'], ("test").data, none⟩]

/-- The win counts the claim asserts for the example history. -/
def c1ClaimWins : Int → Nat := fun k =>
  if k = 1 then 2 else if k = 2 then 1 else if k = 3 then 1 else 0

/-- The loss counts the claim asserts for the example history (no entry
for id 4). -/
def c1ClaimLosses : Int → Nat := fun k =>
  if k = 3 then 1 else if k = 5 then 1 else if k = 6 then 1 else 0

/-- The loss counts the code actually produces for the example history:
garment 4 is on the losing side of the first battle, so it has one loss. -/
def c1ActualLosses : Int → Nat := fun k =>
  if k = 3 then 1 else if k = 4 then 1 else if k = 5 then 1 else if k = 6 then 1 else 0

/-- C1, counterexample.  For the example history the claim says the losses
mapping is exactly `{3:1, 5:1, 6:1}` — no entry for garment 4.  But
garment 4 is in the losing side of the first battle, so the code gives it
one loss. -/
theorem battle_stats_example_counterexample :
    ¬ lookupD (get_battle_item_stats c1Hist).2 4 = c1ClaimLosses 4 := by decide

/-- C1, amended.  For the example history the stats aggregation returns
exactly wins = {1:2, 2:1, 3:1} and losses = {3:1, 4:1, 5:1, 6:1} (the
claim's loss map, corrected to include garment 4's loss). -/
theorem battle_stats_example_amended (k : Int) :
    lookupD (get_battle_item_stats c1Hist).1 k = c1ClaimWins k ∧
    lookupD (get_battle_item_stats c1Hist).2 k = c1ActualLosses k := by
  have h1 : (get_battle_item_stats c1Hist).1 = [(1, 2), (2, 1), (3, 1)] := by decide
  have h2 : (get_battle_item_stats c1Hist).2 = [(3, 1), (4, 1), (5, 1), (6, 1)] := by
    decide
  rw [h1, h2]
  constructor
  · simp only [lookupD, c1ClaimWins]
    split_ifs <;> omega
  · simp only [lookupD, c1ActualLosses]
    split_ifs <;> omega

/-! ## The wear-log uniqueness claim (C8) -/

/-- The concrete empty store: used to exhibit the foreign-key failure
path of `log_wear`. -/
def emptyStore : Store := ⟨[], [], [], [], 100⟩

example : log_wear emptyStore 1 100 none = (emptyStore, false) := by decide

theorem worn_recently_mono (s : Store) {W1 W2 : Nat} (h : W1 ≤ W2) :
    ∀ i ∈ get_items_worn_recently s W1, i ∈ get_items_worn_recently s W2 := by
  intro i hi
  unfold get_items_worn_recently at hi ⊢
  rw [List.mem_dedup] at hi ⊢
  obtain ⟨r, hr, rfl⟩ := List.mem_map.mp hi
  have hr' := List.mem_filter.mp hr
  refine List.mem_map.mpr ⟨r, List.mem_filter.mpr ⟨hr'.1, ?_⟩, rfl⟩
  have hd := of_decide_eq_true hr'.2
  exact decide_eq_true (by omega)

/-- C3.  For every fixed store and exclusion set and all no-repeat windows
W1 < W2, the eligible set under W2 is a subset of the eligible set under
W1 (widening the no-repeat window only removes items). -/
theorem no_repeat_monotonic (s : Store) (E : List Int) (W1 W2 : Nat)
    (h : W1 < W2) :
    ∀ g ∈ get_available_items s W2 E, g ∈ get_available_items s W1 E := by
  intro g hg
  unfold get_available_items at hg ⊢
  rw [List.mem_filter] at hg ⊢
  refine ⟨hg.1, ?_⟩
  have hcond := hg.2
  simp only [Bool.and_eq_true, Bool.not_eq_true'] at hcond ⊢
  refine ⟨?_, hcond.2⟩
  rw [← Bool.not_eq_true]
  intro hc
  have hmem : g.id ∈ get_items_worn_recently s W1 := List.elem_iff.mp hc
  have hmem2 : g.id ∈ get_items_worn_recently s W2 :=
    worn_recently_mono s (Nat.le_of_lt h) g.id hmem
  have hcontains : (get_items_worn_recently s W2).contains g.id = true :=
    List.elem_iff.mpr hmem2
  rw [hcond.1] at hcontains
  cases hcontains

/-- The concrete store for the availability witnesses: one active garment
(id 1) worn 10 days before "today" (= day 100), one never-worn active
garment (id 2). -/
def availStore : Store :=
  ⟨[⟨1, ("A").data, ("top").data, [], [], ("solid").data, [], 3, [], true⟩,
    ⟨2, ("B").data, ("top").data, [], [], ("solid").data, [], 3, [], true⟩],
   [⟨1, none, 90⟩], [], [], 100⟩

/-- C3, witness: the theorem applied to `availStore` with windows 7 < 14
(garment 1, worn 10 days ago, is eligible under 7 and excluded under 14). -/
theorem no_repeat_monotonic_witness :
    (7 < 14 ∧
      ∀ g ∈ get_available_items availStore 14 [],
        g ∈ get_available_items availStore 7 []) ∧
    (∃ g ∈ get_available_items availStore 7 [],
      g ∉ get_available_items availStore 14 []) :=
  ⟨⟨by omega, no_repeat_monotonic availStore [] 7 14 (by omega)⟩, by decide⟩

theorem find?_of_nodup_ids {items : List Item} {g : Item}
    (hnodup : (items.map (fun it => it.id)).Nodup) (hg : g ∈ items) :
    items.find? (fun it => it.id == g.id) = some g := by
  induction items with
  | nil => cases hg
  | cons x rest ih =>
    rw [List.map_cons, List.nodup_cons] at hnodup
    rcases List.mem_cons.mp hg with rfl | hrest
    · simp [List.find?]
    · have hxg : (x.id == g.id) = false := by
        rw [beq_eq_false_iff_ne]
        intro he
        exact hnodup.1 (he ▸ List.mem_map_of_mem (fun it => it.id) hrest)
      rw [List.find?, hxg]
      exact ih hnodup.2 hrest

theorem available_subset_items (s : Store) (W : Nat) (E : List Int) :
    ∀ g ∈ get_available_items s W E, g ∈ s.items := by
  intro g hg
  unfold get_available_items at hg
  have h1 := (List.mem_filter.mp hg).1
  unfold get_all_items at h1
  exact (List.mem_filter.mp h1).1

/-- C2.  For every active garment g in a store with unique garment ids
(as the `id` primary key guarantees), every no-repeat window, every
exclusion set and every locked-id set containing g's id: after the
availability computation plus the locked-item add-back of the Style Me
page, g is in the final eligible set — even if it was excluded by recency
or by explicit exclusion. -/
theorem lock_overrides_exclusion (s : Store) (g : Item) (W : Nat)
    (E locked : List Int)
    (hnodup : (s.items.map (fun it => it.id)).Nodup)
    (hg : g ∈ s.items) (_hact : g.active = true) (hlock : g.id ∈ locked) :
    g ∈ availableWithLocked s W E locked := by
  unfold availableWithLocked
  by_cases hmem : g ∈ get_available_items s W E
  · exact List.mem_append_left _ hmem
  · refine List.mem_append_right _ ?_
    rw [List.mem_filter]
    constructor
    · rw [List.mem_filterMap]
      exact ⟨some g, List.mem_map.mpr ⟨g.id, hlock, find?_of_nodup_ids hnodup hg⟩, rfl⟩
    · rw [Bool.not_eq_true']
      rw [← Bool.not_eq_true]
      intro hc
      have hidmem : g.id ∈ (get_available_items s W E).map (fun it => it.id) :=
        List.elem_iff.mp hc
      obtain ⟨it, hit, hitid⟩ := List.mem_map.mp hidmem
      have : it = g :=
        List.inj_on_of_nodup_map hnodup (available_subset_items s W E it hit) hg hitid
      exact hmem (this ▸ hit)

/-- The concrete store for the C2 witness: garment 1 is active but was
worn today, so recency excludes it; it is also explicitly excluded; it is
locked. -/
theorem lock_overrides_exclusion_witness :
    ((availStore.items.map (fun it => it.id)).Nodup ∧
     (⟨1, ("A").data, ("top").data, [], [], ("solid").data, [], 3, [], true⟩ : Item)
       ∈ availStore.items) ∧
    (⟨1, ("A").data, ("top").data, [], [], ("solid").data, [], 3, [], true⟩ : Item)
      ∈ availableWithLocked availStore 14 [1] [1] :=
  ⟨⟨by decide, by decide⟩,
   lock_overrides_exclusion availStore _ 14 [1] [1] (by decide) (by decide)
     (by decide) (by decide)⟩

/-! ## The response-handling claims (C7, C6) -/

/-- C7.  For every response text that fails to parse as JSON after
de-fencing, the response handling returns a single-element list whose
element carries the error marker and the raw unparsed (de-fenced) text.
It never raises: `handle_response` is total, as the source catches
`json.JSONDecodeError` and returns the error dict instead. -/
theorem parse_failure_reported (raw : Str)
    (hfail : json_loads (stripFence raw) = none) :
    handle_response raw = [.errorItem (stripFence raw)] := by
  show (match json_loads (stripFence raw) with
    | none => [RespItem.errorItem (stripFence raw)]
    | some (Json.arr l) => l.map RespItem.parsed
    | some v => [RespItem.parsed v]) = [RespItem.errorItem (stripFence raw)]
  rw [hfail]

/-- C7, witness: the theorem applied to a concrete non-JSON response. -/
theorem parse_failure_reported_witness :
    json_loads (stripFence ("sorry, no outfits today").data) = none ∧
    handle_response ("sorry, no outfits today").data =
      [.errorItem (stripFence ("sorry, no outfits today").data)] :=
  ⟨rfl, parse_failure_reported ("sorry, no outfits today").data rfl⟩

/-- Keyword-literal remainders never contain a newline or a backtick
(used as the invariant of the `lit` mode). -/
def litOk (rest : Str) : Bool :=
  rest.all (fun c => !(c == '\n') && !(c == btChar))

/-- Invariant on automaton modes: any pending keyword literal is free of
newlines and backticks.  Preserved by `jstep`; all `lit` modes the
automaton ever creates come from the fixed keyword set. -/
def GoodM : Mode → Prop
  | .lit rest _ => litOk rest = true
  | _ => True

/-- Goodness lifted to automaton step results: a failed step is good, a
successful step is good when its mode is. -/
def GoodO : Option JSt → Prop
  | none => True
  | some s => GoodM s.1

theorem goodO_elim {o : Option JSt} {s' : JSt} (hg : GoodO o) (h : o = some s') :
    GoodM s'.1 := by
  rw [h] at hg
  exact hg

theorem goodO_ite {P : Prop} [Decidable P] {A B : Option JSt}
    (hA : GoodO A) (hB : GoodO B) : GoodO (if P then A else B) := by
  by_cases h : P
  · rw [if_pos h]; exact hA
  · rw [if_neg h]; exact hB

theorem reduceVal_good (v : Json) (stk : List Frame) : GoodO (reduceVal v stk) := by
  cases stk with
  | nil => exact True.intro
  | cons f r => cases f <;> exact True.intro

theorem inAfter_good (stk : List Frame) (c : Char) : GoodO (inAfter stk c) := by
  unfold inAfter
  apply goodO_ite
  · exact True.intro
  · cases stk with
    | nil => exact True.intro
    | cons f r =>
      cases f <;> repeat' apply goodO_ite
      all_goals first
        | exact True.intro
        | exact reduceVal_good _ _

theorem endVal_good (v : Json) (stk : List Frame) (c : Char) :
    GoodO (endVal v stk c) := by
  unfold endVal
  cases hr : reduceVal v stk with
  | none => exact True.intro
  | some s1 =>
    obtain ⟨m1, stk1⟩ := s1
    cases m1 <;> first
      | exact True.intro
      | exact inAfter_good _ _
      | (apply goodO_ite <;> exact True.intro)

theorem startVal_good (c : Char) (stk : List Frame) : GoodO (startVal c stk) := by
  unfold startVal
  repeat' apply goodO_ite
  all_goals first
    | exact True.intro
    | (show litOk _ = true; decide)

theorem numStep_good (st : NumSt) (acc : Str) (stk : List Frame) (c : Char) :
    GoodO (numStep st acc stk c) := by
  cases st <;> unfold numStep <;> repeat' apply goodO_ite
  all_goals first
    | exact True.intro
    | (show litOk _ = true; decide)
    | exact endVal_good _ _ _

theorem strStep_good (acc : Str) (k : Bool) (stk : List Frame) (c : Char) :
    GoodO (strStep acc k stk c) := by
  unfold strStep
  repeat' apply goodO_ite
  all_goals first
    | exact True.intro
    | exact reduceVal_good _ _
    | (cases stk with
       | nil => exact True.intro
       | cons f r => cases f <;> exact True.intro)

theorem escStep_good (acc : Str) (k : Bool) (stk : List Frame) (c : Char) :
    GoodO (escStep acc k stk c) := by
  unfold escStep
  repeat' apply goodO_ite
  all_goals exact True.intro

theorem uStep_good (acc : Str) (k : Bool) (need code : Nat) (stk : List Frame)
    (c : Char) : GoodO (uStep acc k need code stk c) := by
  unfold uStep
  cases hexVal c with
  | none => exact True.intro
  | some d =>
    apply goodO_ite <;> exact True.intro

theorem litStep_good {rest : Str} (v : Json) (stk : List Frame) (c : Char)
    (hok : litOk rest = true) : GoodO (litStep rest v stk c) := by
  cases rest with
  | nil => exact True.intro
  | cons r rs =>
    cases rs with
    | nil =>
      show GoodO (if c == r then reduceVal v stk else none)
      exact goodO_ite (reduceVal_good v stk) True.intro
    | cons r2 rs2 =>
      show GoodO (if c == r then some (.lit (r2 :: rs2) v, stk) else none)
      refine goodO_ite ?_ True.intro
      show litOk (r2 :: rs2) = true
      unfold litOk at hok
      simp only [List.all_cons, Bool.and_eq_true] at hok
      unfold litOk
      simp only [List.all_cons, Bool.and_eq_true]
      exact ⟨hok.2.1, hok.2.2⟩

theorem jstep_good {s : JSt} (hg : GoodM s.1) (c : Char) : GoodO (jstep s c) := by
  obtain ⟨m, stk⟩ := s
  cases m
  all_goals first
    | exact strStep_good _ _ _ _
    | exact escStep_good _ _ _ _
    | exact uStep_good _ _ _ _ _ _
    | exact numStep_good _ _ _ _
    | exact litStep_good _ _ _ hg
    | exact inAfter_good _ _
    | (unfold jstep
       repeat' apply goodO_ite
       all_goals first
         | exact True.intro
         | exact startVal_good _ _
         | (show litOk _ = true; decide)
         | (cases stk with
            | nil => exact True.intro
            | cons f r =>
              cases f <;> first
                | exact reduceVal_good _ _
                | exact True.intro))

/-- The property that makes a fence line impossible right after a newline:
a failed step is fine, and after a successful step the next character must
not be a backtick.  `jstep s = some s'` composed with this gives
`jstep s' btChar = none`. -/
def NlOk : Option JSt → Prop
  | none => True
  | some s' => jstep s' btChar = none

theorem nlOk_ite {P : Prop} [Decidable P] {A B : Option JSt}
    (hA : NlOk A) (hB : NlOk B) : NlOk (if P then A else B) := by
  by_cases h : P
  · rw [if_pos h]; exact hA
  · rw [if_neg h]; exact hB

theorem inAfter_bt (stk : List Frame) : inAfter stk btChar = none := by
  unfold inAfter
  rw [if_neg (by decide : ¬ (isJsonWs btChar = true))]
  cases stk with
  | nil => rfl
  | cons f r => cases f <;> rfl

theorem reduceVal_nl (v : Json) (stk : List Frame) : NlOk (reduceVal v stk) := by
  cases stk with
  | nil => exact rfl
  | cons f r =>
    cases f with
    | arr es => exact inAfter_bt _
    | obj mem => exact True.intro
    | objV mem k => exact inAfter_bt _

theorem endVal_nl (v : Json) (stk : List Frame) : NlOk (endVal v stk '\n') := by
  unfold endVal
  cases hr : reduceVal v stk with
  | none => exact True.intro
  | some s1 =>
    obtain ⟨m1, stk1⟩ := s1
    cases m1 <;> first
      | exact True.intro
      | exact inAfter_bt _
      | exact rfl

theorem litStep_bt {rest : Str} (v : Json) (stk : List Frame)
    (hok : litOk rest = true) : litStep rest v stk btChar = none := by
  cases rest with
  | nil => rfl
  | cons r rs =>
    have h1 : (r == btChar) = false := by
      unfold litOk at hok
      simp only [List.all_cons, Bool.and_eq_true, Bool.not_eq_true'] at hok
      exact hok.1.2
    have hr : (btChar == r) = false := by
      rw [beq_eq_false_iff_ne] at h1 ⊢
      exact fun he => h1 he.symm
    cases rs with
    | nil =>
      show (if (btChar == r) = true then reduceVal v stk else none) = none
      simp [hr]
    | cons r2 rs2 =>
      show (if (btChar == r) = true then some (Mode.lit (r2 :: rs2) v, stk) else none)
        = none
      simp [hr]

theorem jstep_nl {s : JSt} (hg : GoodM s.1) : NlOk (jstep s '\n') := by
  obtain ⟨m, stk⟩ := s
  cases m with
  | val => exact rfl
  | arrFirst => exact rfl
  | objFirst => exact rfl
  | key => exact rfl
  | colon => exact rfl
  | topDone v => exact rfl
  | strM acc k => exact True.intro
  | strEsc acc k => exact True.intro
  | strU acc k need code => exact True.intro
  | after => exact inAfter_bt stk
  | numM st acc =>
    cases st with
    | sign => exact True.intro
    | dot => exact True.intro
    | ex => exact True.intro
    | esign => exact True.intro
    | zero => exact endVal_nl _ _
    | intg => exact endVal_nl _ _
    | frac => exact endVal_nl _ _
    | expn => exact endVal_nl _ _
  | lit rest v =>
    have hok : litOk rest = true := hg
    cases rest with
    | nil => exact True.intro
    | cons r rs =>
      cases rs with
      | nil =>
        show NlOk (if ('\n' == r) = true then reduceVal v stk else none)
        exact nlOk_ite (reduceVal_nl v stk) True.intro
      | cons r2 rs2 =>
        show NlOk (if ('\n' == r) = true then some (Mode.lit (r2 :: rs2) v, stk)
          else none)
        refine nlOk_ite ?_ True.intro
        show litStep (r2 :: rs2) v stk btChar = none
        apply litStep_bt
        unfold litOk at hok ⊢
        simp only [List.all_cons, Bool.and_eq_true] at hok
        simp only [List.all_cons, Bool.and_eq_true]
        exact hok.2

theorem runJ_none (t : Str) : runJ none t = none := by
  induction t with
  | nil => rfl
  | cons c cs ih => exact ih

theorem runJ_append (s : Option JSt) (a b : Str) :
    runJ s (a ++ b) = runJ (runJ s a) b := by
  induction a generalizing s with
  | nil => rfl
  | cons c cs ih => exact ih _

theorem runJ_good (t : Str) :
    ∀ (s : JSt), GoodM s.1 → ∀ {s' : JSt}, runJ (some s) t = some s' → GoodM s'.1 := by
  induction t with
  | nil =>
    intro s hg s' h
    injection h with h
    subst h
    exact hg
  | cons c cs ih =>
    intro s hg s' h
    have hgo := jstep_good hg c
    cases hj : jstep s c with
    | none =>
      rw [show runJ (some s) (c :: cs) = runJ (jstep s c) cs from rfl, hj,
        runJ_none] at h
      cases h
    | some s1 =>
      refine ih s1 (goodO_elim hgo hj) ?_
      rw [show runJ (some s) (c :: cs) = runJ (jstep s c) cs from rfl, hj] at h
      exact h

/-- A text accepted by `json_loads` neither starts with a backtick nor
contains a backtick immediately after a newline: outside string literals a
backtick is never legal JSON, and raw newlines may not occur inside string
literals. -/
theorem json_loads_no_bt {t : Str} {v : Json} (h : json_loads t = some v) :
    (∀ rest, t ≠ btChar :: rest) ∧ (∀ a b, t ≠ a ++ '\n' :: btChar :: b) := by
  constructor
  · intro rest ht
    subst ht
    unfold json_loads at h
    rw [show runJ (some (Mode.val, [])) (btChar :: rest)
        = runJ (jstep (Mode.val, ([] : List Frame)) btChar) rest from rfl,
      show jstep (Mode.val, ([] : List Frame)) btChar = none from rfl,
      runJ_none] at h
    cases h
  · intro a b ht
    subst ht
    unfold json_loads at h
    rw [runJ_append] at h
    cases hs : runJ (some (Mode.val, [])) a with
    | none => rw [hs, runJ_none] at h; cases h
    | some s =>
      have hgs : GoodM s.1 := runJ_good a (Mode.val, []) True.intro hs
      rw [hs] at h
      cases hj : jstep s '\n' with
      | none =>
        rw [show runJ (some s) ('\n' :: btChar :: b)
            = runJ (jstep s '\n') (btChar :: b) from rfl, hj, runJ_none] at h
        cases h
      | some s1 =>
        have hbt : jstep s1 btChar = none := by
          have hn := jstep_nl hgs
          rw [hj] at hn
          exact hn
        rw [show runJ (some s) ('\n' :: btChar :: b)
            = runJ (jstep s '\n') (btChar :: b) from rfl, hj,
          show runJ (some s1) (btChar :: b) = runJ (jstep s1 btChar) b from rfl,
          hbt, runJ_none] at h
        cases h

theorem fenceStart_eq_cons {l : Str} (h : fenceStart l = true) :
    ∃ r, l = btChar :: r := by
  obtain ⟨r, hr⟩ := isPref_exists h
  exact ⟨btChar :: btChar :: r, hr⟩

/-- No line of a text accepted by `json_loads` starts with a code fence. -/
theorem json_lines_no_fence {t : Str} {v : Json} (h : json_loads t = some v) :
    ∀ l ∈ splitNl t, fenceStart l = false := by
  intro l hl
  rw [Bool.eq_false_iff]
  intro hf
  obtain ⟨l2, rfl⟩ := fenceStart_eq_cons hf
  obtain ⟨hno1, hno2⟩ := json_loads_no_bt h
  obtain ⟨h0, tl, r0, hsplit, hpref⟩ := splitNl_head_pref t
  rw [hsplit] at hl
  rcases List.mem_cons.mp hl with heq | htl
  · exact hno1 (l2 ++ r0) (by rw [hpref, ← heq]; rfl)
  · obtain ⟨a, r, ha⟩ :=
      splitNl_tail_after_nl t (btChar :: l2) (by rw [hsplit]; exact htl)
    exact hno2 a (l2 ++ r) (by rw [ha]; rfl)

theorem json_no_fenceStart {t : Str} {v : Json} (h : json_loads t = some v) :
    fenceStart t = false := by
  rw [Bool.eq_false_iff]
  intro hf
  obtain ⟨l2, hl⟩ := fenceStart_eq_cons hf
  exact (json_loads_no_bt h).1 l2 hl

theorem collectFence_block (ls : List Str) (h : ∀ l ∈ ls, fenceStart l = false) :
    collectFence (ls ++ [bt3]) true = ls := by
  induction ls with
  | nil => rfl
  | cons l ls2 ih =>
    show (if fenceStart l = true then []
      else l :: collectFence (ls2 ++ [bt3]) true) = l :: ls2
    have hneg : ¬ (fenceStart l = true) := by
      simp [h l (List.mem_cons_self l ls2)]
    rw [if_neg hneg, ih (fun z hz => h z (List.mem_cons_of_mem l hz))]

theorem stripFence_fenceWrap (info t : Str) (hinfo : NoNl info)
    (hlines : ∀ l ∈ splitNl t, fenceStart l = false) :
    stripFence (fenceWrap info t) = t := by
  have hstart : fenceStart (fenceWrap info t) = true := by
    show isPref bt3 ((bt3 ++ info) ++ '\n' :: (t ++ '\n' :: bt3)) = true
    rw [List.append_assoc]
    exact isPref_append_self _ _
  have hsplit : splitNl (fenceWrap info t) = (bt3 ++ info) :: (splitNl t ++ [bt3]) := by
    show splitNl ((bt3 ++ info) ++ '\n' :: (t ++ '\n' :: bt3)) = _
    rw [splitNl_append, splitNl_no_nl (bt3 ++ info) (noNl_append (by decide) hinfo),
      splitNl_append, splitNl_no_nl bt3 (by decide)]
    rfl
  unfold stripFence
  rw [if_pos hstart, hsplit]
  show joinNl (if fenceStart (bt3 ++ info) = true
    then collectFence (splitNl t ++ [bt3]) true
    else collectFence (splitNl t ++ [bt3]) false) = t
  have hf : fenceStart (bt3 ++ info) = true := isPref_append_self _ _
  rw [if_pos hf, collectFence_block _ hlines, joinNl_splitNl]

theorem stripFence_of_not_fenced (t : Str) (h : fenceStart t = false) :
    stripFence t = t := by
  unfold stripFence
  rw [if_neg (by simp [h])]

/-- C6.  For every response text `t` that parses as a valid 2-element JSON
array, the response-handling pipeline (de-fence, then parse) applied to
`t` wrapped in triple-backtick fencing (with any newline-free info string
on the opening fence) yields the same 2-element candidate list as applying
it to the unfenced `t`. -/
theorem fenced_response_round_trip (info t : Str) (x y : Json)
    (hinfo : NoNl info) (hparse : json_loads t = some (Json.arr [x, y])) :
    handle_response (fenceWrap info t) = handle_response t ∧
    handle_response t = [RespItem.parsed x, RespItem.parsed y] := by
  have hlines := json_lines_no_fence hparse
  have hsf : stripFence (fenceWrap info t) = t :=
    stripFence_fenceWrap info t hinfo hlines
  have hsf2 : stripFence t = t := stripFence_of_not_fenced t (json_no_fenceStart hparse)
  constructor
  · simp only [handle_response, hsf, hsf2]
  · simp only [handle_response, hsf2, hparse]
    rfl

/-- C6, witness: the theorem applied to the concrete two-element array
text "[1, 2]" wrapped in a "json"-tagged fence. -/
theorem fenced_response_round_trip_witness :
    (NoNl ("json").data ∧
     json_loads ("[1, 2]").data = some (Json.arr [Json.num ['1'], Json.num ['2']])) ∧
    (handle_response (fenceWrap ("json").data ("[1, 2]").data) =
       handle_response ("[1, 2]").data ∧
     handle_response ("[1, 2]").data =
       [RespItem.parsed (Json.num ['1']), RespItem.parsed (Json.num ['2'])]) :=
  ⟨⟨by decide, rfl⟩,
   fenced_response_round_trip ("json").data ("[1, 2]").data _ _ (by decide) rfl⟩

/-! ## The vote-transition frame claim (C9) -/

theorem foldl_log_wear_frame (items : List Item) (st : Store) :
    (items.foldl (fun acc it => (log_wear acc it.id acc.today none).1) st).items
      = st.items ∧
    (items.foldl (fun acc it => (log_wear acc it.id acc.today none).1) st).battles
      = st.battles ∧
    (items.foldl (fun acc it => (log_wear acc it.id acc.today none).1) st).outfits
      = st.outfits ∧
    (items.foldl (fun acc it => (log_wear acc it.id acc.today none).1) st).today
      = st.today ∧
    ∃ ext, (items.foldl (fun acc it => (log_wear acc it.id acc.today none).1) st).wear_log
        = st.wear_log ++ ext ∧
      ∀ row ∈ ext, row.date_worn = st.today ∧ ∃ it ∈ items, row.item_id = it.id := by
  induction items generalizing st with
  | nil =>
    exact ⟨rfl, rfl, rfl, rfl, [], (List.append_nil _).symm, by simp⟩
  | cons it its ih =>
    simp only [List.foldl_cons]
    have hstep :
        ((log_wear st it.id st.today none).1.items = st.items ∧
         (log_wear st it.id st.today none).1.battles = st.battles ∧
         (log_wear st it.id st.today none).1.outfits = st.outfits ∧
         (log_wear st it.id st.today none).1.today = st.today) ∧
        ∃ e0, (log_wear st it.id st.today none).1.wear_log = st.wear_log ++ e0 ∧
          ∀ row ∈ e0, row.date_worn = st.today ∧ row.item_id = it.id := by
      unfold log_wear
      by_cases hc : (!(st.items.any (fun x => x.id == it.id)) ||
          st.wear_log.any
            (fun r => r.item_id == it.id && r.date_worn == st.today)) = true
      · rw [if_pos hc]
        exact ⟨⟨rfl, rfl, rfl, rfl⟩, [], (List.append_nil _).symm, by simp⟩
      · rw [if_neg hc]
        exact ⟨⟨rfl, rfl, rfl, rfl⟩, [⟨it.id, none, st.today⟩], rfl, by simp⟩
    obtain ⟨⟨hi, hb, ho, ht⟩, e0, he0, hrows0⟩ := hstep
    obtain ⟨ri, rb, ro, rt, ext, hext, hrows⟩ := ih ((log_wear st it.id st.today none).1)
    refine ⟨ri.trans hi, rb.trans hb, ro.trans ho, rt.trans ht, e0 ++ ext, ?_, ?_⟩
    · rw [hext, he0, List.append_assoc]
    · intro row hrow
      rcases List.mem_append.mp hrow with h0 | h1
      · obtain ⟨hd, hid⟩ := hrows0 row h0
        exact ⟨hd, it, List.mem_cons_self it its, hid⟩
      · obtain ⟨hd, it', hit', hid⟩ := hrows row h1
        exact ⟨ht ▸ hd, it', List.mem_cons_of_mem it hit', hid⟩

/-- C9.  On the GENERATED → VOTED transition (`_cast_vote` with winner "a"
or "b"): exactly one Battle record is appended, capturing both candidates'
garment-id lists, names, the winner tag and the stored occasion/weather
context; the wear-log rows added are all for today's date and only for ids
of items resolved from the winning candidate (each such id is in the
winning candidate's id list and resolves in the catalogue); and nothing
else is persisted — items and saved outfits are unchanged. -/
theorem cast_vote_frame (s : Store) (a b : Candidate) (w occ : Str)
    (wea : Option Str) (_hw : w = ['a'] ∨ w = ['b']) :
    (cast_vote s a b w occ wea).battles = s.battles ++
      [⟨a.item_ids.getD [], b.item_ids.getD [],
        a.name.getD ("Outfit A").data, b.name.getD ("Outfit B").data,
        w, occ, wea⟩] ∧
    (∃ ext, (cast_vote s a b w occ wea).wear_log = s.wear_log ++ ext ∧
      ∀ row ∈ ext, row.date_worn = s.today ∧
        ∃ it ∈ resolve_outfit_items s (if w = ['a'] then a else b),
          row.item_id = it.id) ∧
    (∀ it ∈ resolve_outfit_items s (if w = ['a'] then a else b),
      it.id ∈ (if w = ['a'] then a else b).item_ids.getD [] ∧
        (get_item s it.id).isSome = true) ∧
    (cast_vote s a b w occ wea).items = s.items ∧
    (cast_vote s a b w occ wea).outfits = s.outfits := by
  unfold cast_vote
  set s1 := (save_battle s (a.item_ids.getD []) (b.item_ids.getD [])
    (a.name.getD ("Outfit A").data) (b.name.getD ("Outfit B").data)
    w occ wea).1 with hs1
  have hs1items : s1.items = s.items := rfl
  have hs1today : s1.today = s.today := rfl
  have hs1log : s1.wear_log = s.wear_log := rfl
  have hs1out : s1.outfits = s.outfits := rfl
  have hs1bat : s1.battles = s.battles ++
      [⟨a.item_ids.getD [], b.item_ids.getD [],
        a.name.getD ("Outfit A").data, b.name.getD ("Outfit B").data,
        w, occ, wea⟩] := rfl
  have hres : resolve_outfit_items s1 (if w = ['a'] then a else b) =
      resolve_outfit_items s (if w = ['a'] then a else b) := by
    unfold resolve_outfit_items get_item
    rw [hs1items]
  obtain ⟨ri, rb, ro, rt, ext, hext, hrows⟩ :=
    foldl_log_wear_frame (resolve_outfit_items s1 (if w = ['a'] then a else b)) s1
  refine ⟨rb.trans hs1bat, ⟨ext, ?_, ?_⟩, ?_, ri.trans hs1items, ro.trans hs1out⟩
  · rw [hext, hs1log]
  · intro row hrow
    obtain ⟨hd, it, hit, hid⟩ := hrows row hrow
    exact ⟨hs1today ▸ hd, it, hres ▸ hit, hid⟩
  · intro it hit
    unfold resolve_outfit_items at hit
    obtain ⟨iid, hiid, hgot⟩ := List.mem_filterMap.mp hit
    have hid : it.id = iid := by
      have := List.find?_some hgot
      exact beq_iff_eq.mp this
    exact ⟨by rw [hid]; exact hiid, by rw [hid, hgot]; rfl⟩

/-- Concrete candidates for the C9 witness. -/
def c9A : Candidate :=
  ⟨some ("Look A").data, some [1, 99], some ("r").data, none⟩

/-- Concrete candidate B for the C9 witness. -/
def c9B : Candidate :=
  ⟨some ("Look B").data, some [2], some ("r").data, none⟩

/-- C9, witness: the frame theorem applied to `availStore` with a vote for
"a" (candidate A references garment 1 and a stale id 99 that does not
resolve). -/
theorem cast_vote_frame_witness :
    (['a'] = ['a'] ∨ (['a'] : Str) = ['b']) ∧
    ((cast_vote availStore c9A c9B ['a'] ("work").data none).battles =
      availStore.battles ++
        [⟨[1, 99], [2], ("Look A").data, ("Look B").data, ['a'], ("work").data, none⟩] ∧
     (∃ ext, (cast_vote availStore c9A c9B ['a'] ("work").data none).wear_log =
        availStore.wear_log ++ ext ∧
        ∀ row ∈ ext, row.date_worn = availStore.today ∧
          ∃ it ∈ resolve_outfit_items availStore
              (if (['a'] : Str) = ['a'] then c9A else c9B),
            row.item_id = it.id) ∧
     (∀ it ∈ resolve_outfit_items availStore
          (if (['a'] : Str) = ['a'] then c9A else c9B),
        it.id ∈ (if (['a'] : Str) = ['a'] then c9A else c9B).item_ids.getD [] ∧
          (get_item availStore it.id).isSome = true) ∧
     (cast_vote availStore c9A c9B ['a'] ("work").data none).items =
       availStore.items ∧
     (cast_vote availStore c9A c9B ['a'] ("work").data none).outfits =
       availStore.outfits) :=
  ⟨Or.inl rfl,
   cast_vote_frame availStore c9A c9B ['a'] ("work").data none (Or.inl rfl)⟩

end Wardrobe
